import Mathlib

/-!
Shallow embedding of the binary-numbers minigame from `src/games/binary_numbers.rs`.

Modelling conventions:
* `u32` counters (score, streak, rounds, lives) are modelled as `Nat`; the code's
  `if lives > 0 { lives -= 1 }` is saturating subtraction, kept explicitly.
* `f64` time values are modelled as `ℚ` (ideal real-valued time, exact arithmetic).
* The process-wide RNG (`rand::rng()`, a fresh handle per `Puzzle::new` call) is
  modelled by an `Rng` oracle: a stream of draws (each draw for
  `random_range(0..=ub)` is taken modulo `ub + 1`, matching the library contract
  that the result lies in the requested range), a `shuffle` function carrying the
  `SliceRandom::shuffle` contract (the result is a permutation of the input), and
  a fuel bound for the rejection-sampling loop, which for an adversarial stream
  need not terminate; `Puzzle::new` therefore returns an `Option`.
* Key events are the key codes the handlers discriminate on; `charH` stands for
  both `'h'` and `'H'`, `charS` for `'s'` and `'S'` (the code treats each pair
  identically), `other` for every remaining key.
* `suggestions[0]` / `suggestions[i]` indexing is modelled with `List.getD _ 0`;
  the Rust code would panic out of bounds, which never happens at the call sites
  (the generated list has length `suggestion_count ≥ 3`, and computed indices are
  reduced modulo the length).
-/

namespace Hackerman

inductive GuessResult where
  | correct
  | incorrect
  | timeout
  deriving DecidableEq, Repr

inductive Bits where
  | four
  | eight
  | twelve
  | sixteen
  deriving DecidableEq, Repr

def Bits.to_int : Bits → Nat
  | Bits.four => 4
  | Bits.eight => 8
  | Bits.twelve => 12
  | Bits.sixteen => 16

def Bits.upper_bound (b : Bits) : Nat := 2 ^ b.to_int - 1

def Bits.suggestion_count : Bits → Nat
  | Bits.four => 3
  | Bits.eight => 4
  | Bits.twelve => 5
  | Bits.sixteen => 6

/-- The `base_time` table inside `BinaryNumbersPuzzle::new`. -/
def Bits.base_time : Bits → ℚ
  | Bits.four => 8
  | Bits.eight => 12
  | Bits.twelve => 16
  | Bits.sixteen => 20

/-- Oracle for the randomness consumed by `BinaryNumbersPuzzle::new`. -/
structure Rng where
  stream : Nat → Nat
  shuffle : List Nat → List Nat
  shuffle_perm : ∀ l, List.Perm (shuffle l) l
  fuel : Nat

/-- The rejection-sampling `while` loop of `BinaryNumbersPuzzle::new`:
draw a number in `[0, ub]`, push it if it is not already present, until the
list has `count` elements.  `i` indexes the draw stream; the fuel bounds the
number of iterations, and the final stream position is returned so later
draws continue where the loop stopped. -/
def genSuggestions (stream : Nat → Nat) (ub count : Nat) :
    Nat → Nat → List Nat → Option (List Nat × Nat)
  | 0, i, acc => if acc.length < count then none else some (acc, i)
  | fuel + 1, i, acc =>
    if acc.length < count then
      let num := stream i % (ub + 1)
      if num ∈ acc then genSuggestions stream ub count fuel (i + 1) acc
      else genSuggestions stream ub count fuel (i + 1) (acc ++ [num])
    else some (acc, i)

structure BinaryNumbersPuzzle where
  bits : Bits
  current_number : Nat
  suggestions : List Nat
  selected_suggestion : Option Nat
  time_total : ℚ
  time_left : ℚ
  guess_result : Option GuessResult
  show_hint : Bool
  deriving DecidableEq, Repr

/-- Embeds `BinaryNumbersPuzzle::new(bits, streak)`. -/
def BinaryNumbersPuzzle.new (rng : Rng) (bits : Bits) (streak : Nat) :
    Option BinaryNumbersPuzzle :=
  match genSuggestions rng.stream bits.upper_bound bits.suggestion_count rng.fuel 0 [] with
  | none => none
  | some (sugg, i) =>
    let current_index := rng.stream i % sugg.length
    let current_number := sugg.getD current_index 0
    let shuffled := rng.shuffle sugg
    let penalty : ℚ := (streak : ℚ) * (1 / 2)
    let time_total : ℚ := max (bits.base_time - penalty) 5
    some {
      bits := bits
      current_number := current_number
      suggestions := shuffled
      selected_suggestion := some (shuffled.getD 0 0)
      time_total := time_total
      time_left := time_total
      guess_result := none
      show_hint := false }

def BinaryNumbersPuzzle.is_correct_guess (p : BinaryNumbersPuzzle) (g : Nat) : Bool :=
  g == p.current_number

/-- Embeds `BinaryNumbersPuzzle::run(dt)` (`advance` in the spec). -/
def BinaryNumbersPuzzle.run (p : BinaryNumbersPuzzle) (dt : ℚ) : BinaryNumbersPuzzle :=
  if p.guess_result.isSome then p
  else
    let tl := max (p.time_left - dt) 0
    if tl ≤ 0 then { p with time_left := tl, guess_result := some GuessResult.timeout }
    else { p with time_left := tl }

def MAX_LIVES : Nat := 5

structure BinaryNumbersGame where
  puzzle : BinaryNumbersPuzzle
  bits : Bits
  exit_intended : Bool
  score : Nat
  streak : Nat
  rounds : Nat
  puzzle_resolved : Bool
  lives : Nat
  game_over : Bool
  deriving DecidableEq, Repr

inductive KeyCode where
  | esc
  | enter
  | left
  | right
  | charH
  | charS
  | other
  deriving DecidableEq, Repr

/-- Embeds `BinaryNumbersGame::new(bits)`. -/
def BinaryNumbersGame.new (rng : Rng) (bits : Bits) : Option BinaryNumbersGame :=
  (BinaryNumbersPuzzle.new rng bits 0).map (fun p =>
    { puzzle := p
      bits := bits
      exit_intended := false
      score := 0
      streak := 0
      rounds := 0
      puzzle_resolved := false
      lives := 3
      game_over := false })

/-- Embeds `BinaryNumbersGame::finalize_round`, mirroring the Rust mutation order. -/
def BinaryNumbersGame.finalize_round (g : BinaryNumbersGame) : BinaryNumbersGame :=
  match g.puzzle.guess_result with
  | none => g
  | some result =>
    let g := { g with rounds := g.rounds + 1 }
    let g :=
      match result with
      | GuessResult.correct =>
        let streak := g.streak + 1
        let score := g.score + (10 + streak * 2)
        let lives :=
          if streak % 5 = 0 ∧ g.lives < MAX_LIVES then g.lives + 1 else g.lives
        { g with streak := streak, score := score, lives := lives }
      | GuessResult.incorrect =>
        { g with streak := 0, lives := if g.lives > 0 then g.lives - 1 else g.lives }
      | GuessResult.timeout =>
        { g with streak := 0, lives := if g.lives > 0 then g.lives - 1 else g.lives }
    let g := if g.lives = 0 then { g with game_over := true } else g
    { g with puzzle_resolved := true }

/-- The assignment `self.puzzle.guess_result = Some(r)` used by the Enter and
skip branches of `handle_no_result_yet`. -/
def BinaryNumbersGame.set_result (g : BinaryNumbersGame) (r : GuessResult) :
    BinaryNumbersGame :=
  { g with puzzle := { g.puzzle with guess_result := some r } }

/-- Embeds `BinaryNumbersGame::handle_no_result_yet` (dispatched when no outcome yet). -/
def BinaryNumbersGame.handle_no_result_yet (g : BinaryNumbersGame) (input : KeyCode) :
    BinaryNumbersGame :=
  match input with
  | KeyCode.right =>
    match g.puzzle.selected_suggestion with
    | some selected =>
      match g.puzzle.suggestions.findIdx? (fun x => x == selected) with
      | some index =>
        let next_index := (index + 1) % g.puzzle.suggestions.length
        { g with puzzle :=
            { g.puzzle with selected_suggestion := some (g.puzzle.suggestions.getD next_index 0) } }
      | none => g
    | none =>
      { g with puzzle :=
          { g.puzzle with selected_suggestion := some (g.puzzle.suggestions.getD 0 0) } }
  | KeyCode.left =>
    match g.puzzle.selected_suggestion with
    | some selected =>
      match g.puzzle.suggestions.findIdx? (fun x => x == selected) with
      | some index =>
        let prev_index :=
          if index = 0 then g.puzzle.suggestions.length - 1 else index - 1
        { g with puzzle :=
            { g.puzzle with selected_suggestion := some (g.puzzle.suggestions.getD prev_index 0) } }
      | none => g
    | none => g
  | KeyCode.enter =>
    match g.puzzle.selected_suggestion with
    | some selected =>
      let g :=
        if g.puzzle.is_correct_guess selected then g.set_result GuessResult.correct
        else g.set_result GuessResult.incorrect
      g.finalize_round
    | none => g
  | KeyCode.charH =>
    { g with puzzle := { g.puzzle with show_hint := !g.puzzle.show_hint } }
  | KeyCode.charS =>
    (g.set_result GuessResult.timeout).finalize_round
  | _ => g

/-- Embeds `BinaryNumbersGame::handle_result_available` (dispatched once an outcome
exists); the Enter branch creates a fresh puzzle, hence consumes randomness. -/
def BinaryNumbersGame.handle_result_available (rng : Rng) (g : BinaryNumbersGame)
    (input : KeyCode) : Option BinaryNumbersGame :=
  match input with
  | KeyCode.enter =>
    (BinaryNumbersPuzzle.new rng g.bits g.streak).map
      (fun p => { g with puzzle := p, puzzle_resolved := false })
  | KeyCode.esc => some { g with exit_intended := true }
  | KeyCode.charH =>
    some { g with puzzle := { g.puzzle with show_hint := !g.puzzle.show_hint } }
  | _ => some g

/-- Embeds `BinaryNumbersGame::reset_game_state`. -/
def BinaryNumbersGame.reset_game_state (rng : Rng) (g : BinaryNumbersGame) :
    Option BinaryNumbersGame :=
  (BinaryNumbersPuzzle.new rng g.bits 0).map
    (fun p =>
      { g with score := 0, streak := 0, rounds := 0, lives := 3,
               game_over := false, puzzle_resolved := false, puzzle := p })

/-- Embeds `BinaryNumbersGame::handle_game_over_input`. -/
def BinaryNumbersGame.handle_game_over_input (rng : Rng) (g : BinaryNumbersGame)
    (input : KeyCode) : Option BinaryNumbersGame :=
  match input with
  | KeyCode.enter => g.reset_game_state rng
  | KeyCode.esc => some { g with exit_intended := true }
  | _ => some g

/-- Embeds `BinaryNumbersGame::handle_game_input` (= `handle_input`). -/
def BinaryNumbersGame.handle_game_input (rng : Rng) (g : BinaryNumbersGame)
    (input : KeyCode) : Option BinaryNumbersGame :=
  if input = KeyCode.esc then some { g with exit_intended := true }
  else if g.game_over then g.handle_game_over_input rng input
  else
    match g.puzzle.guess_result with
    | none => some (g.handle_no_result_yet input)
    | some _ => g.handle_result_available rng input

/-- Embeds `BinaryNumbersGame::run(dt)` (the per-frame tick). -/
def BinaryNumbersGame.run (g : BinaryNumbersGame) (dt : ℚ) : BinaryNumbersGame :=
  if g.game_over then g
  else
    let g := { g with puzzle := g.puzzle.run dt }
    if g.puzzle.guess_result.isSome && !g.puzzle_resolved then g.finalize_round else g

/-- Session states reachable from a fresh game by ticks and key events. -/
inductive Reachable : BinaryNumbersGame → Prop where
  | init : ∀ rng bits g, BinaryNumbersGame.new rng bits = some g → Reachable g
  | tick : ∀ g dt, Reachable g → Reachable (g.run dt)
  | key : ∀ g rng input g2, Reachable g →
      BinaryNumbersGame.handle_game_input rng g input = some g2 → Reachable g2

/-- A deterministic oracle used to instantiate concrete scenarios. -/
def idRng (fuel : Nat) : Rng :=
  { stream := fun n => n
    shuffle := fun l => l
    shuffle_perm := fun l => List.Perm.refl l
    fuel := fuel }

/-- An oracle realising the spec scenario: draws 170, 5, 7, 9, then picks the
suggestion at index `0 % 4 = 0`, so the target is 170. -/
def rng170 : Rng :=
  { stream := fun n => [170, 5, 7, 9].getD n 0
    shuffle := fun l => l
    shuffle_perm := fun l => List.Perm.refl l
    fuel := 8 }

/-- The puzzle produced by `BinaryNumbersPuzzle.new (idRng 16) Bits.eight 0`. -/
def pInit : BinaryNumbersPuzzle :=
  { bits := Bits.eight
    current_number := 0
    suggestions := [0, 1, 2, 3]
    selected_suggestion := some 0
    time_total := 12
    time_left := 12
    guess_result := none
    show_hint := false }

/-- The fresh game produced by `BinaryNumbersGame.new (idRng 16) Bits.eight`. -/
def gInit : BinaryNumbersGame :=
  { puzzle := pInit
    bits := Bits.eight
    exit_intended := false
    score := 0
    streak := 0
    rounds := 0
    puzzle_resolved := false
    lives := 3
    game_over := false }

/-- The spec-scenario puzzle: target 170 among suggestions `[170, 5, 7, 9]`. -/
def p170 : BinaryNumbersPuzzle :=
  { bits := Bits.eight
    current_number := 170
    suggestions := [170, 5, 7, 9]
    selected_suggestion := some 170
    time_total := 12
    time_left := 12
    guess_result := none
    show_hint := false }

/-- Fresh game holding the spec-scenario puzzle. -/
def g170 : BinaryNumbersGame := { gInit with puzzle := p170 }

/-- A game-over session state (all lives lost on the initial puzzle's clone). -/
def gOver : BinaryNumbersGame := { gInit with game_over := true, lives := 0 }

end Hackerman

namespace Hackerman

/-! Evaluation helpers: compute `BinaryNumbersPuzzle.new` on concrete oracles. -/

theorem puzzle_new_eq (rng : Rng) (bits : Bits) (streak : Nat) (sugg : List Nat) (i : Nat)
    (h : genSuggestions rng.stream bits.upper_bound bits.suggestion_count rng.fuel 0 []
          = some (sugg, i)) :
    BinaryNumbersPuzzle.new rng bits streak = some {
      bits := bits
      current_number := sugg.getD (rng.stream i % sugg.length) 0
      suggestions := rng.shuffle sugg
      selected_suggestion := some ((rng.shuffle sugg).getD 0 0)
      time_total := max (bits.base_time - (streak : ℚ) * (1 / 2)) 5
      time_left := max (bits.base_time - (streak : ℚ) * (1 / 2)) 5
      guess_result := none
      show_hint := false } := by
  unfold BinaryNumbersPuzzle.new
  rw [h]

theorem hpInit : BinaryNumbersPuzzle.new (idRng 16) Bits.eight 0 = some pInit := by
  have h := puzzle_new_eq (idRng 16) Bits.eight 0 [0, 1, 2, 3] 4 (by decide)
  rw [h]
  unfold pInit idRng
  norm_num [Bits.base_time]

theorem hgInit : BinaryNumbersGame.new (idRng 16) Bits.eight = some gInit := by
  unfold BinaryNumbersGame.new
  rw [hpInit]
  rfl

theorem hp170 : BinaryNumbersPuzzle.new rng170 Bits.eight 0 = some p170 := by
  have h := puzzle_new_eq rng170 Bits.eight 0 [170, 5, 7, 9] 4 (by decide)
  rw [h]
  unfold p170 rng170
  norm_num [Bits.base_time]

theorem hg170 : BinaryNumbersGame.new rng170 Bits.eight = some g170 := by
  unfold BinaryNumbersGame.new
  rw [hp170]
  rfl

/-! Evaluation lemmas for `finalize_round`. -/

theorem finalize_eval_none (g : BinaryNumbersGame) (h : g.puzzle.guess_result = none) :
    g.finalize_round = g := by
  unfold BinaryNumbersGame.finalize_round
  rw [h]

theorem finalize_eval_correct (g : BinaryNumbersGame)
    (h : g.puzzle.guess_result = some GuessResult.correct) :
    g.finalize_round =
      { g with
        rounds := g.rounds + 1
        streak := g.streak + 1
        score := g.score + (10 + (g.streak + 1) * 2)
        lives :=
          if (g.streak + 1) % 5 = 0 ∧ g.lives < MAX_LIVES then g.lives + 1 else g.lives
        game_over :=
          if (if (g.streak + 1) % 5 = 0 ∧ g.lives < MAX_LIVES then g.lives + 1 else g.lives)
              = 0 then true else g.game_over
        puzzle_resolved := true } := by
  unfold BinaryNumbersGame.finalize_round
  rw [h]
  dsimp only
  split <;> split <;> simp_all

theorem finalize_eval_lost (g : BinaryNumbersGame) (r : GuessResult)
    (hr : r = GuessResult.incorrect ∨ r = GuessResult.timeout)
    (h : g.puzzle.guess_result = some r) :
    g.finalize_round =
      { g with
        rounds := g.rounds + 1
        streak := 0
        lives := g.lives - 1
        game_over := if g.lives - 1 = 0 then true else g.game_over
        puzzle_resolved := true } := by
  unfold BinaryNumbersGame.finalize_round
  rw [h]
  have hl : (if g.lives > 0 then g.lives - 1 else g.lives) = g.lives - 1 := by
    split <;> omega
  rcases hr with hr | hr <;> subst hr <;> dsimp only <;> rw [hl] <;> split <;> simp_all

/-- The puzzle component is never mutated by finalization. -/
theorem finalize_puzzle_eq (g : BinaryNumbersGame) : g.finalize_round.puzzle = g.puzzle := by
  unfold BinaryNumbersGame.finalize_round
  cases h : g.puzzle.guess_result with
  | none => rfl
  | some r => cases r <;> dsimp only <;> (repeat' split) <;> rfl

/-- C1: Round finalization follows the spec's scoring rule: with an outcome set,
`finalize_round` increments `rounds_played`; on Correct it increments the streak,
adds `10 + 2 * streak` (post-increment streak) to the score and grants a life
exactly when the new streak is a multiple of 5 and `lives < 5`; on Incorrect or
Timeout it zeroes the streak and decrements lives saturating at 0. -/
theorem C1_finalize_round_scoring (g : BinaryNumbersGame) (r : GuessResult)
    (h : g.puzzle.guess_result = some r) :
    g.finalize_round.rounds = g.rounds + 1
    ∧ (r = GuessResult.correct →
        g.finalize_round.streak = g.streak + 1
        ∧ g.finalize_round.score = g.score + (10 + 2 * (g.streak + 1))
        ∧ g.finalize_round.lives =
            (if (g.streak + 1) % 5 = 0 ∧ g.lives < 5 then g.lives + 1 else g.lives))
    ∧ ((r = GuessResult.incorrect ∨ r = GuessResult.timeout) →
        g.finalize_round.streak = 0 ∧ g.finalize_round.lives = g.lives - 1) := by
  cases r with
  | correct =>
    rw [finalize_eval_correct g h]
    refine ⟨rfl, fun _ => ⟨rfl, by dsimp only; omega, rfl⟩, fun hc => by simp at hc⟩
  | incorrect =>
    rw [finalize_eval_lost g GuessResult.incorrect (Or.inl rfl) h]
    exact ⟨rfl, fun hc => by simp at hc, fun _ => ⟨rfl, rfl⟩⟩
  | timeout =>
    rw [finalize_eval_lost g GuessResult.timeout (Or.inr rfl) h]
    exact ⟨rfl, fun hc => by simp at hc, fun _ => ⟨rfl, rfl⟩⟩

/-- C1 witness: the spec scenario — target 170 selected and confirmed from the
fresh session gives score 12, streak 1, one round played, lives untouched. -/
theorem C1_finalize_round_scoring_witness :
    (g170.set_result GuessResult.correct).finalize_round.score = 12
    ∧ (g170.set_result GuessResult.correct).finalize_round.streak = 1
    ∧ (g170.set_result GuessResult.correct).finalize_round.rounds = 1
    ∧ (g170.set_result GuessResult.correct).finalize_round.lives = 3 := by
  have h := C1_finalize_round_scoring (g170.set_result GuessResult.correct)
    GuessResult.correct rfl
  obtain ⟨h1, h2, -⟩ := h
  obtain ⟨hs, hsc, hl⟩ := h2 rfl
  refine ⟨?_, ?_, ?_, ?_⟩
  · rw [hsc]; rfl
  · rw [hs]; rfl
  · rw [h1]; rfl
  · rw [hl]; decide

/-- C10: an Esc key event only sets the exit-intended flag; every other field
of the session, including the whole in-progress puzzle, is left unchanged, so
quitting never finalizes a round, costs no life and awards no score. -/
theorem C10_esc_sets_exit_only (rng : Rng) (g : BinaryNumbersGame) :
    g.handle_game_input rng KeyCode.esc = some { g with exit_intended := true } := by
  unfold BinaryNumbersGame.handle_game_input
  simp

/-- C9 counterexample: in the game-over state the `h` key is ignored — the
hint flag is NOT flipped, refuting the claim that toggling works in every
session state including game over. -/
theorem C9_counterexample :
    BinaryNumbersGame.handle_game_input (idRng 16) gOver KeyCode.charH = some gOver
    ∧ gOver.puzzle.show_hint = false
    ∧ ¬ (BinaryNumbersGame.handle_game_input (idRng 16) gOver KeyCode.charH
          = some { gOver with puzzle := { gOver.puzzle with show_hint := true } }) := by
  decide

/-! Lemmas about `BinaryNumbersPuzzle.run` and fresh puzzles. -/

theorem run_some (p : BinaryNumbersPuzzle) (dt : ℚ) (h : p.guess_result.isSome = true) :
    p.run dt = p := by
  unfold BinaryNumbersPuzzle.run
  rw [h]
  rfl

theorem run_time_nonneg (p : BinaryNumbersPuzzle) (dt : ℚ) (h : 0 ≤ p.time_left) :
    0 ≤ (p.run dt).time_left := by
  unfold BinaryNumbersPuzzle.run
  split
  · exact h
  · dsimp only
    split
    · exact le_max_right _ _
    · exact le_max_right _ _

theorem run_outcome_none_or_timeout (p : BinaryNumbersPuzzle) (dt : ℚ)
    (h : p.guess_result = none ∨ p.guess_result = some GuessResult.timeout) :
    (p.run dt).guess_result = none ∨ (p.run dt).guess_result = some GuessResult.timeout := by
  unfold BinaryNumbersPuzzle.run
  split
  · exact h
  · dsimp only
    split
    · exact Or.inr rfl
    · exact h

theorem puzzle_new_fields (rng : Rng) (bits : Bits) (streak : Nat) (p : BinaryNumbersPuzzle)
    (h : BinaryNumbersPuzzle.new rng bits streak = some p) :
    p.guess_result = none ∧ p.time_left = p.time_total ∧ p.show_hint = false := by
  unfold BinaryNumbersPuzzle.new at h
  split at h
  · exact absurd h (by simp)
  · rw [Option.some.injEq] at h
    subst h
    exact ⟨rfl, rfl, rfl⟩

theorem iterate_run_outcome (p : BinaryNumbersPuzzle) (dt : ℚ) (k : Nat)
    (h : p.guess_result = none) :
    ((fun q => BinaryNumbersPuzzle.run q dt)^[k] p).guess_result = none
    ∨ ((fun q => BinaryNumbersPuzzle.run q dt)^[k] p).guess_result
        = some GuessResult.timeout := by
  induction k with
  | zero => exact Or.inl h
  | succ n ih =>
    rw [Function.iterate_succ_apply']
    exact run_outcome_none_or_timeout _ dt ih

theorem iterate_run_none_time (p : BinaryNumbersPuzzle) (dt : ℚ) (k : Nat) :
    ((fun q => BinaryNumbersPuzzle.run q dt)^[k] p).guess_result = none →
    ((fun q => BinaryNumbersPuzzle.run q dt)^[k] p).time_left = p.time_left - k * dt
    ∧ (0 < k → 0 < ((fun q => BinaryNumbersPuzzle.run q dt)^[k] p).time_left) := by
  induction k with
  | zero =>
    intro _
    constructor
    · simp
    · intro h0
      exact absurd h0 (lt_irrefl 0)
  | succ n ih =>
    intro hk
    simp only [Function.iterate_succ_apply'] at hk ⊢
    cases hres : ((fun q => BinaryNumbersPuzzle.run q dt)^[n] p).guess_result with
    | some r =>
      rw [run_some _ dt (by rw [hres]; rfl), hres] at hk
      exact absurd hk (by simp)
    | none =>
      obtain ⟨htl, -⟩ := ih hres
      generalize hgen : (fun q => BinaryNumbersPuzzle.run q dt)^[n] p = q at hres htl hk ⊢
      unfold BinaryNumbersPuzzle.run at hk ⊢
      rw [hres] at hk ⊢
      simp only [Option.isSome_none, Bool.false_eq_true, if_false] at hk ⊢
      split at hk
      · simp at hk
      · rename_i hcond
        rw [if_neg hcond]
        have hx : 0 < q.time_left - dt := by
          rcases lt_max_iff.mp (not_le.mp hcond) with hx | hx
          · exact hx
          · exact absurd hx (lt_irrefl 0)
        constructor
        · dsimp only
          rw [max_eq_left (le_of_lt hx), htl]
          push_cast
          ring
        · intro _
          dsimp only
          rw [max_eq_left (le_of_lt hx)]
          exact hx

/-- C5: for an unresolved puzzle, `run` clamps `time_left` at
`max (time_left - dt) 0`, the clock never goes negative, the outcome becomes
Timeout exactly when the clock reaches 0, and with a fixed `dt > 0` the puzzle
times out within `ceil (time_total / dt)` calls. -/
theorem C5_timeout_convergence (p : BinaryNumbersPuzzle) (dt : ℚ)
    (hres : p.guess_result = none) (hdt : 0 < dt) (htl0 : 0 ≤ p.time_left)
    (htl : p.time_left ≤ p.time_total) (htt : 0 < p.time_total) :
    (p.run dt).time_left = max (p.time_left - dt) 0
    ∧ (∀ k, 0 ≤ ((fun q => BinaryNumbersPuzzle.run q dt)^[k] p).time_left)
    ∧ ((p.run dt).guess_result = some GuessResult.timeout ↔ (p.run dt).time_left = 0)
    ∧ ((fun q => BinaryNumbersPuzzle.run q dt)^[⌈p.time_total / dt⌉₊] p).guess_result
        = some GuessResult.timeout := by
  refine ⟨?_, ?_, ?_, ?_⟩
  · unfold BinaryNumbersPuzzle.run
    rw [hres]
    simp only [Option.isSome_none, Bool.false_eq_true, if_false]
    split <;> rfl
  · intro k
    induction k with
    | zero => exact htl0
    | succ n ih =>
      rw [Function.iterate_succ_apply']
      exact run_time_nonneg _ dt ih
  · unfold BinaryNumbersPuzzle.run
    rw [hres]
    simp only [Option.isSome_none, Bool.false_eq_true, if_false]
    split
    · rename_i hc
      exact ⟨fun _ => le_antisymm hc (le_max_right _ _), fun _ => rfl⟩
    · rename_i hc
      constructor
      · intro habs
        exact absurd habs (by simp)
      · intro habs
        dsimp only at habs
        exact absurd (le_of_eq habs) hc
  · rcases iterate_run_outcome p dt (⌈p.time_total / dt⌉₊) hres with hnone | hsome
    · exfalso
      obtain ⟨htln, hpos⟩ := iterate_run_none_time p dt (⌈p.time_total / dt⌉₊) hnone
      have hn1 : 0 < ⌈p.time_total / dt⌉₊ := Nat.ceil_pos.mpr (div_pos htt hdt)
      have h2 := hpos hn1
      rw [htln] at h2
      have hge : p.time_total / dt ≤ ((⌈p.time_total / dt⌉₊ : Nat) : ℚ) := Nat.le_ceil _
      have hmul : p.time_total ≤ ((⌈p.time_total / dt⌉₊ : Nat) : ℚ) * dt :=
        (div_le_iff₀ hdt).mp hge
      linarith
    · exact hsome

/-- C5 witness: the concrete initial 8-bit puzzle (12 s) with `dt = 5` times
out within `ceil (12/5) = 3` calls. -/
theorem C5_timeout_convergence_witness :
    (pInit.run 5).time_left = max (pInit.time_left - 5) 0
    ∧ 0 ≤ ((fun q => BinaryNumbersPuzzle.run q 5)^[2] pInit).time_left
    ∧ ((pInit.run 5).guess_result = some GuessResult.timeout
        ↔ (pInit.run 5).time_left = 0)
    ∧ ((fun q => BinaryNumbersPuzzle.run q 5)^[⌈pInit.time_total / 5⌉₊] pInit).guess_result
        = some GuessResult.timeout := by
  have h := C5_timeout_convergence pInit 5 rfl (by norm_num) (by norm_num [pInit])
    (by norm_num [pInit]) (by norm_num [pInit])
  exact ⟨h.1, h.2.1 2, h.2.2.1, h.2.2.2⟩

/-- C4: once a round's outcome is recorded, ticking leaves the puzzle untouched,
selection-movement keys leave the whole session untouched, and the Enter key can
only leave the puzzle unchanged or install a brand-new unresolved puzzle — the
recorded outcome is never mutated or re-resolved. -/
theorem C4_resolved_round_frozen (g : BinaryNumbersGame) (r : GuessResult)
    (h : g.puzzle.guess_result = some r) :
    (∀ dt, (g.run dt).puzzle = g.puzzle)
    ∧ (∀ rng, g.handle_game_input rng KeyCode.left = some g
        ∧ g.handle_game_input rng KeyCode.right = some g)
    ∧ (∀ rng g2, g.handle_game_input rng KeyCode.enter = some g2 →
        g2.puzzle = g.puzzle
        ∨ (g2.puzzle.guess_result = none ∧ g2.puzzle_resolved = false)) := by
  have hsome : g.puzzle.guess_result.isSome = true := by rw [h]; rfl
  refine ⟨?_, ?_, ?_⟩
  · intro dt
    unfold BinaryNumbersGame.run
    split
    · rfl
    · dsimp only
      rw [run_some _ dt hsome]
      split
      · rw [finalize_puzzle_eq]
      · rfl
  · intro rng
    by_cases hgo : g.game_over = true <;>
      constructor <;>
        simp [BinaryNumbersGame.handle_game_input, BinaryNumbersGame.handle_game_over_input,
          BinaryNumbersGame.handle_result_available, hgo, h]
  · intro rng g2 h2
    unfold BinaryNumbersGame.handle_game_input at h2
    rw [if_neg (by decide : ¬(KeyCode.enter = KeyCode.esc))] at h2
    by_cases hgo : g.game_over = true
    · rw [if_pos hgo] at h2
      unfold BinaryNumbersGame.handle_game_over_input BinaryNumbersGame.reset_game_state at h2
      dsimp only at h2
      rw [Option.map_eq_some'] at h2
      obtain ⟨p, hp, hg2⟩ := h2
      right
      rw [← hg2]
      exact ⟨(puzzle_new_fields _ _ _ _ hp).1, rfl⟩
    · rw [if_neg hgo, h] at h2
      unfold BinaryNumbersGame.handle_result_available at h2
      dsimp only at h2
      rw [Option.map_eq_some'] at h2
      obtain ⟨p, hp, hg2⟩ := h2
      right
      rw [← hg2]
      exact ⟨(puzzle_new_fields _ _ _ _ hp).1, rfl⟩

/-! The session invariant: zero lives coincides with game over, and the
`puzzle_resolved` flag coincides with the current puzzle having an outcome. -/

def SessionInv (g : BinaryNumbersGame) : Prop :=
  (g.lives = 0 ↔ g.game_over = true)
  ∧ (g.puzzle_resolved = true ↔ g.puzzle.guess_result.isSome = true)

theorem inv_of_fields (g g2 : BinaryNumbersGame)
    (hl : g2.lives = g.lives) (hgo : g2.game_over = g.game_over)
    (hpr : g2.puzzle_resolved = g.puzzle_resolved)
    (hgr : g2.puzzle.guess_result = g.puzzle.guess_result)
    (hInv : SessionInv g) : SessionInv g2 := by
  unfold SessionInv at hInv ⊢
  rw [hl, hgo, hpr, hgr]
  exact hInv

theorem inv_finalize (g : BinaryNumbersGame) (r : GuessResult)
    (h : g.puzzle.guess_result = some r) (hgo : g.game_over = false) :
    SessionInv g.finalize_round := by
  unfold SessionInv
  cases r with
  | correct =>
    rw [finalize_eval_correct g h]
    refine ⟨?_, ?_⟩
    · dsimp only
      rw [hgo]
      by_cases hz :
          (if (g.streak + 1) % 5 = 0 ∧ g.lives < MAX_LIVES then g.lives + 1 else g.lives) = 0
      · simp [hz]
      · simp [hz]
    · dsimp only
      rw [h]
      simp
  | incorrect =>
    rw [finalize_eval_lost g GuessResult.incorrect (Or.inl rfl) h]
    refine ⟨?_, ?_⟩
    · dsimp only
      rw [hgo]
      by_cases hz : g.lives - 1 = 0
      · simp [hz]
      · simp [hz]
    · dsimp only
      rw [h]
      simp
  | timeout =>
    rw [finalize_eval_lost g GuessResult.timeout (Or.inr rfl) h]
    refine ⟨?_, ?_⟩
    · dsimp only
      rw [hgo]
      by_cases hz : g.lives - 1 = 0
      · simp [hz]
      · simp [hz]
    · dsimp only
      rw [h]
      simp

theorem inv_run (g : BinaryNumbersGame) (dt : ℚ) (hInv : SessionInv g) :
    SessionInv (g.run dt) := by
  unfold BinaryNumbersGame.run
  split
  · exact hInv
  · rename_i hgo
    have hgof : g.game_over = false := by
      revert hgo
      cases g.game_over <;> simp
    dsimp only
    cases hres : g.puzzle.guess_result with
    | some r =>
      rw [run_some _ dt (by rw [hres]; rfl)]
      have hrt : g.puzzle_resolved = true := hInv.2.mpr (by rw [hres]; rfl)
      simp only [hrt, hres, Option.isSome_some, Bool.not_true, Bool.and_false,
        Bool.false_eq_true, if_false]
      exact inv_of_fields g _ rfl rfl hrt.symm rfl hInv
    | none =>
      have hrf : g.puzzle_resolved = false := by
        cases hb : g.puzzle_resolved
        · rfl
        · exact absurd (hInv.2.mp hb) (by rw [hres]; simp)
      unfold BinaryNumbersPuzzle.run
      rw [hres]
      simp only [Option.isSome_none, Bool.false_eq_true, if_false]
      split
      · simp only [hrf, Option.isSome_some, Bool.not_false, Bool.and_true, if_true]
        exact inv_finalize _ GuessResult.timeout rfl hgof
      · simp only [hrf, Option.isSome_none, Bool.false_and, Bool.false_eq_true, if_false]
        exact inv_of_fields g _ rfl rfl hrf.symm hres.symm hInv

theorem inv_key (rng : Rng) (g : BinaryNumbersGame) (input : KeyCode)
    (g2 : BinaryNumbersGame) (hInv : SessionInv g)
    (h : g.handle_game_input rng input = some g2) : SessionInv g2 := by
  unfold BinaryNumbersGame.handle_game_input at h
  by_cases hesc : input = KeyCode.esc
  · rw [if_pos hesc, Option.some.injEq] at h
    subst h
    exact inv_of_fields g _ rfl rfl rfl rfl hInv
  rw [if_neg hesc] at h
  by_cases hgo : g.game_over = true
  · rw [if_pos hgo] at h
    unfold BinaryNumbersGame.handle_game_over_input at h
    cases input with
    | esc => exact absurd rfl hesc
    | enter =>
      unfold BinaryNumbersGame.reset_game_state at h
      rw [Option.map_eq_some'] at h
      obtain ⟨p, hp, hg2⟩ := h
      subst hg2
      unfold SessionInv
      constructor
      · simp
      · rw [(puzzle_new_fields _ _ _ _ hp).1]
        simp
    | left => rw [Option.some.injEq] at h; subst h; exact hInv
    | right => rw [Option.some.injEq] at h; subst h; exact hInv
    | charH => rw [Option.some.injEq] at h; subst h; exact hInv
    | charS => rw [Option.some.injEq] at h; subst h; exact hInv
    | other => rw [Option.some.injEq] at h; subst h; exact hInv
  · rw [if_neg hgo] at h
    have hgof : g.game_over = false := by
      revert hgo
      cases g.game_over <;> simp
    cases hres : g.puzzle.guess_result with
    | none =>
      rw [hres] at h
      dsimp only at h
      rw [Option.some.injEq] at h
      subst h
      unfold BinaryNumbersGame.handle_no_result_yet
      cases input with
      | esc => exact absurd rfl hesc
      | right =>
        cases hsel : g.puzzle.selected_suggestion with
        | none =>
          simp only [hsel]
          exact inv_of_fields g _ rfl rfl rfl rfl hInv
        | some sel =>
          simp only [hsel]
          cases hidx : g.puzzle.suggestions.findIdx? (fun x => x == sel) with
          | none => simp only [hidx]; exact hInv
          | some index =>
            simp only [hidx]
            exact inv_of_fields g _ rfl rfl rfl rfl hInv
      | left =>
        cases hsel : g.puzzle.selected_suggestion with
        | none =>
          simp only [hsel]
          exact hInv
        | some sel =>
          simp only [hsel]
          cases hidx : g.puzzle.suggestions.findIdx? (fun x => x == sel) with
          | none => simp only [hidx]; exact hInv
          | some index =>
            simp only [hidx]
            exact inv_of_fields g _ rfl rfl rfl rfl hInv
      | enter =>
        cases hsel : g.puzzle.selected_suggestion with
        | none => simp only [hsel]; exact hInv
        | some sel =>
          simp only [hsel]
          split
          · exact inv_finalize _ GuessResult.correct rfl hgof
          · exact inv_finalize _ GuessResult.incorrect rfl hgof
      | charH => exact inv_of_fields g _ rfl rfl rfl rfl hInv
      | charS => exact inv_finalize _ GuessResult.timeout rfl hgof
      | other => exact hInv
    | some r =>
      rw [hres] at h
      dsimp only at h
      unfold BinaryNumbersGame.handle_result_available at h
      cases input with
      | esc => exact absurd rfl hesc
      | enter =>
        rw [Option.map_eq_some'] at h
        obtain ⟨p, hp, hg2⟩ := h
        subst hg2
        unfold SessionInv
        constructor
        · exact hInv.1
        · rw [(puzzle_new_fields _ _ _ _ hp).1]
          simp
      | left => rw [Option.some.injEq] at h; subst h; exact hInv
      | right => rw [Option.some.injEq] at h; subst h; exact hInv
      | charH =>
        rw [Option.some.injEq] at h
        subst h
        exact inv_of_fields g _ rfl rfl rfl rfl hInv
      | charS => rw [Option.some.injEq] at h; subst h; exact hInv
      | other => rw [Option.some.injEq] at h; subst h; exact hInv

theorem inv_new (rng : Rng) (bits : Bits) (g : BinaryNumbersGame)
    (h : BinaryNumbersGame.new rng bits = some g) : SessionInv g := by
  unfold BinaryNumbersGame.new at h
  rw [Option.map_eq_some'] at h
  obtain ⟨p, hp, hg⟩ := h
  subst hg
  unfold SessionInv
  constructor
  · simp
  · rw [(puzzle_new_fields _ _ _ _ hp).1]
    simp

theorem reachable_inv (g : BinaryNumbersGame) (h : Reachable g) : SessionInv g := by
  induction h with
  | init rng bits g hnew => exact inv_new rng bits g hnew
  | tick g dt _ ih => exact inv_run g dt ih
  | key g rng input g2 _ hstep ih => exact inv_key rng g input g2 ih hstep

theorem game_over_persist_run (g : BinaryNumbersGame) (dt : ℚ)
    (hgo : g.game_over = true) : (g.run dt).game_over = true := by
  unfold BinaryNumbersGame.run
  simp [hgo]

theorem game_over_persist_key (rng : Rng) (g : BinaryNumbersGame) (input : KeyCode)
    (g2 : BinaryNumbersGame) (hgo : g.game_over = true) (hne : input ≠ KeyCode.enter)
    (h : g.handle_game_input rng input = some g2) : g2.game_over = true := by
  unfold BinaryNumbersGame.handle_game_input at h
  by_cases hesc : input = KeyCode.esc
  · rw [if_pos hesc, Option.some.injEq] at h
    subst h
    exact hgo
  · rw [if_neg hesc, if_pos hgo] at h
    unfold BinaryNumbersGame.handle_game_over_input at h
    cases input with
    | esc => exact absurd rfl hesc
    | enter => exact absurd rfl hne
    | left => rw [Option.some.injEq] at h; subst h; exact hgo
    | right => rw [Option.some.injEq] at h; subst h; exact hgo
    | charH => rw [Option.some.injEq] at h; subst h; exact hgo
    | charS => rw [Option.some.injEq] at h; subst h; exact hgo
    | other => rw [Option.some.injEq] at h; subst h; exact hgo

/-- C2: in every reachable session state, `lives = 0` holds iff `game_over`
holds; and once `game_over` is set, it survives every tick and every key event
other than the Enter key (the explicit reset). -/
theorem C2_lives_zero_iff_game_over (g : BinaryNumbersGame) (hg : Reachable g) :
    (g.lives = 0 ↔ g.game_over = true)
    ∧ (g.game_over = true →
        (∀ dt, (g.run dt).game_over = true)
        ∧ (∀ rng input g2, input ≠ KeyCode.enter →
            g.handle_game_input rng input = some g2 → g2.game_over = true)) :=
  ⟨(reachable_inv g hg).1,
   fun hgo =>
    ⟨fun dt => game_over_persist_run g dt hgo,
     fun rng input g2 hne h => game_over_persist_key rng g input g2 hgo hne h⟩⟩

/-- C2 witness: the invariant holds at the concrete fresh 8-bit session. -/
theorem C2_lives_zero_iff_game_over_witness : gInit.lives = 0 ↔ gInit.game_over = true :=
  (C2_lives_zero_iff_game_over gInit
    (Reachable.init (idRng 16) Bits.eight gInit hgInit)).1

/-- The session state after skipping the first round of the concrete fresh
8-bit session (one life lost, round recorded as a timeout and finalized). -/
def gS : BinaryNumbersGame :=
  { gInit with
    puzzle := { pInit with guess_result := some GuessResult.timeout }
    rounds := 1
    lives := 2
    puzzle_resolved := true }

theorem hgS : BinaryNumbersGame.handle_game_input (idRng 16) gInit KeyCode.charS
    = some gS := by decide

theorem run_resolved_fields (g : BinaryNumbersGame) (dt : ℚ)
    (h : g.puzzle_resolved = true) :
    (g.run dt).score = g.score ∧ (g.run dt).streak = g.streak
    ∧ (g.run dt).lives = g.lives ∧ (g.run dt).rounds = g.rounds
    ∧ (g.run dt).puzzle_resolved = true := by
  unfold BinaryNumbersGame.run
  split
  · exact ⟨rfl, rfl, rfl, rfl, h⟩
  · simp [h]

theorem iterate_run_resolved (g : BinaryNumbersGame) (dt : ℚ) (k : Nat)
    (h : g.puzzle_resolved = true) :
    ((fun x => BinaryNumbersGame.run x dt)^[k] g).score = g.score
    ∧ ((fun x => BinaryNumbersGame.run x dt)^[k] g).streak = g.streak
    ∧ ((fun x => BinaryNumbersGame.run x dt)^[k] g).lives = g.lives
    ∧ ((fun x => BinaryNumbersGame.run x dt)^[k] g).rounds = g.rounds
    ∧ ((fun x => BinaryNumbersGame.run x dt)^[k] g).puzzle_resolved = true := by
  induction k with
  | zero => exact ⟨rfl, rfl, rfl, rfl, h⟩
  | succ n ih =>
    obtain ⟨h1, h2, h3, h4, h5⟩ := ih
    simp only [Function.iterate_succ_apply']
    obtain ⟨k1, k2, k3, k4, k5⟩ := run_resolved_fields _ dt h5
    exact ⟨k1.trans h1, k2.trans h2, k3.trans h3, k4.trans h4, k5⟩

/-- C7: once the current round is finalized (`puzzle_resolved`), any number of
further ticks leaves score, streak, lives and rounds unchanged — no outcome is
ever scored twice; and in every reachable state, `puzzle_resolved` holds exactly
when the current puzzle has a non-null outcome. -/
theorem C7_no_double_scoring (g : BinaryNumbersGame) :
    (g.puzzle_resolved = true →
      ∀ k dt,
        ((fun x => BinaryNumbersGame.run x dt)^[k] g).score = g.score
        ∧ ((fun x => BinaryNumbersGame.run x dt)^[k] g).streak = g.streak
        ∧ ((fun x => BinaryNumbersGame.run x dt)^[k] g).lives = g.lives
        ∧ ((fun x => BinaryNumbersGame.run x dt)^[k] g).rounds = g.rounds)
    ∧ (Reachable g → (g.puzzle_resolved = true ↔ g.puzzle.guess_result.isSome = true)) := by
  constructor
  · intro hres k dt
    obtain ⟨h1, h2, h3, h4, -⟩ := iterate_run_resolved g dt k hres
    exact ⟨h1, h2, h3, h4⟩
  · intro hr
    exact (reachable_inv g hr).2

/-- C7 witness: the finalized skipped round of the concrete session keeps its
stats across two further ticks, and the resolved flag matches the outcome. -/
theorem C7_no_double_scoring_witness :
    ((fun x => BinaryNumbersGame.run x 1)^[2] gS).score = gS.score
    ∧ ((fun x => BinaryNumbersGame.run x 1)^[2] gS).streak = gS.streak
    ∧ ((fun x => BinaryNumbersGame.run x 1)^[2] gS).lives = gS.lives
    ∧ ((fun x => BinaryNumbersGame.run x 1)^[2] gS).rounds = gS.rounds
    ∧ (gS.puzzle_resolved = true ↔ gS.puzzle.guess_result.isSome = true) := by
  have h := C7_no_double_scoring gS
  have h1 := h.1 rfl 2 1
  have h2 := h.2 (Reachable.key gInit (idRng 16) KeyCode.charS gS
    (Reachable.init (idRng 16) Bits.eight gInit hgInit) hgS)
  exact ⟨h1.1, h1.2.1, h1.2.2.1, h1.2.2.2, h2⟩

/-- The session state after pressing Enter on the resolved skipped round:
the next round starts with a fresh unresolved puzzle. -/
def gSNext : BinaryNumbersGame := { gS with puzzle := pInit, puzzle_resolved := false }

/-- C4 witness: the concrete resolved (skipped) round is frozen under a tick,
Left and Right keys, and the Enter key only installs a fresh unresolved puzzle. -/
theorem C4_resolved_round_frozen_witness :
    (gS.run 1).puzzle = gS.puzzle
    ∧ gS.handle_game_input (idRng 16) KeyCode.left = some gS
    ∧ gS.handle_game_input (idRng 16) KeyCode.right = some gS
    ∧ (gSNext.puzzle = gS.puzzle
        ∨ (gSNext.puzzle.guess_result = none ∧ gSNext.puzzle_resolved = false)) := by
  have h := C4_resolved_round_frozen gS GuessResult.timeout rfl
  refine ⟨h.1 1, (h.2.1 (idRng 16)).1, (h.2.1 (idRng 16)).2, ?_⟩
  refine h.2.2 (idRng 16) _ ?_
  have hnew : BinaryNumbersPuzzle.new (idRng 16) gS.bits gS.streak = some pInit := hpInit
  unfold BinaryNumbersGame.handle_game_input BinaryNumbersGame.handle_result_available
  rw [if_neg (by decide : ¬(KeyCode.enter = KeyCode.esc))]
  simp only [show gS.game_over = false from rfl, Bool.false_eq_true, if_false,
    show gS.puzzle.guess_result = some GuessResult.timeout from rfl]
  rw [hnew]
  rfl

/-! C6: the suggestion generator. -/

theorem genSuggestions_spec (stream : Nat → Nat) (ub count : Nat) :
    ∀ fuel i acc out,
      acc.Nodup → (∀ x ∈ acc, x ≤ ub) → acc.length ≤ count →
      genSuggestions stream ub count fuel i acc = some out →
      out.1.Nodup ∧ (∀ x ∈ out.1, x ≤ ub) ∧ out.1.length = count := by
  intro fuel
  induction fuel with
  | zero =>
    intro i acc out hnd hub hlen h
    unfold genSuggestions at h
    split at h
    · exact absurd h (by simp)
    · rename_i hge
      rw [Option.some.injEq] at h
      subst h
      refine ⟨hnd, hub, ?_⟩
      dsimp only
      omega
  | succ n ih =>
    intro i acc out hnd hub hlen h
    unfold genSuggestions at h
    split at h
    · rename_i hlt
      dsimp only at h
      split at h
      · exact ih _ _ _ hnd hub hlen h
      · rename_i hmem
        apply ih _ _ _ ?_ ?_ ?_ h
        · rw [List.nodup_append]
          refine ⟨hnd, List.nodup_singleton _, ?_⟩
          intro a ha hb
          simp only [List.mem_singleton] at hb
          subst hb
          exact hmem ha
        · intro x hx
          rcases List.mem_append.mp hx with hx | hx
          · exact hub x hx
          · simp only [List.mem_singleton] at hx
            subst hx
            have := Nat.mod_lt (stream i) (show 0 < ub + 1 by omega)
            omega
        · simp only [List.length_append, List.length_singleton]
          omega
    · rename_i hge
      rw [Option.some.injEq] at h
      subst h
      refine ⟨hnd, hub, ?_⟩
      dsimp only
      omega

theorem getD_mem_of_lt (l : List Nat) (n : Nat) (h : n < l.length) : l.getD n 0 ∈ l := by
  rw [List.getD_eq_getElem?_getD, List.getElem?_eq_getElem h]
  exact List.getElem_mem h

/-- C6: for every bit width, streak and sequence of draws on which the
generator succeeds, the fresh puzzle has exactly `suggestion_count` pairwise
distinct suggestions, all within `[0, upper_bound]`, with the target among
them; its total time is `max (base_time - 0.5 * streak) 5` with the clock
full, the first suggestion selected, no outcome, and the hint hidden. -/
theorem C6_puzzle_new_spec (rng : Rng) (bits : Bits) (streak : Nat)
    (p : BinaryNumbersPuzzle) (h : BinaryNumbersPuzzle.new rng bits streak = some p) :
    p.suggestions.length = bits.suggestion_count
    ∧ p.suggestions.Nodup
    ∧ (∀ x ∈ p.suggestions, x ≤ bits.upper_bound)
    ∧ p.current_number ∈ p.suggestions
    ∧ p.time_total = max (bits.base_time - (streak : ℚ) * (1 / 2)) 5
    ∧ p.time_left = p.time_total
    ∧ p.selected_suggestion = some (p.suggestions.getD 0 0)
    ∧ p.guess_result = none
    ∧ p.show_hint = false := by
  unfold BinaryNumbersPuzzle.new at h
  split at h
  · exact absurd h (by simp)
  · rename_i sugg i hg
    rw [Option.some.injEq] at h
    subst h
    obtain ⟨hnd, hub, hlen⟩ := genSuggestions_spec rng.stream bits.upper_bound
      bits.suggestion_count rng.fuel 0 [] (sugg, i) List.nodup_nil (by simp) (by simp) hg
    have hperm := rng.shuffle_perm sugg
    have hcount : 0 < bits.suggestion_count := by cases bits <;> simp [Bits.suggestion_count]
    have hslen : sugg.length = bits.suggestion_count := hlen
    refine ⟨?_, ?_, ?_, ?_, rfl, rfl, rfl, rfl, rfl⟩
    · dsimp only
      rw [hperm.length_eq, hslen]
    · exact hperm.nodup_iff.mpr hnd
    · intro x hx
      exact hub x (hperm.mem_iff.mp hx)
    · dsimp only
      apply hperm.mem_iff.mpr
      exact getD_mem_of_lt sugg _ (Nat.mod_lt _ (by omega))

/-- C6 witness: the concrete deterministic oracle at 8 bits, streak 0. -/
theorem C6_puzzle_new_spec_witness :
    pInit.suggestions.length = Bits.suggestion_count Bits.eight
    ∧ pInit.suggestions.Nodup
    ∧ pInit.current_number ∈ pInit.suggestions
    ∧ pInit.time_total = max (Bits.base_time Bits.eight - (0 : ℚ) * (1 / 2)) 5
    ∧ pInit.guess_result = none := by
  have h := C6_puzzle_new_spec (idRng 16) Bits.eight 0 pInit hpInit
  exact ⟨h.1, h.2.1, h.2.2.2.1, h.2.2.2.2.1, h.2.2.2.2.2.2.2.1⟩

/-! C8: selection movement. -/

/-- On a duplicate-free list, `position` (= `findIdx?`) of the element at
index `i` returns `i`. -/
theorem findIdx_self_of_nodup (l : List Nat) (i : Nat) (hi : i < l.length)
    (hnd : l.Nodup) : l.findIdx? (fun x => x == l.getD i 0) = some i := by
  rw [List.findIdx?_eq_some_iff_getElem]
  refine ⟨hi, ?_, ?_⟩
  · rw [List.getD_eq_getElem?_getD, List.getElem?_eq_getElem hi]
    simp
  · intro j hji
    rw [List.getD_eq_getElem?_getD, List.getElem?_eq_getElem hi]
    simp only [Option.getD_some, beq_iff_eq]
    rw [hnd.getElem_inj_iff]
    omega

/-- Abbreviation for the selection update written inline in the handlers. -/
def BinaryNumbersGame.set_selection (g : BinaryNumbersGame) (s : Option Nat) :
    BinaryNumbersGame :=
  { g with puzzle := { g.puzzle with selected_suggestion := s } }

/-- A mid-round state whose puzzle has no selection (used to refute C8's
claim about the Previous direction). -/
def gNoSel : BinaryNumbersGame :=
  { gInit with puzzle := { pInit with selected_suggestion := none } }

/-- C8 counterexample: with no selection, the Left (Previous) key is a no-op —
the selection stays `none` instead of moving to index 0 as the claim states. -/
theorem C8_counterexample :
    BinaryNumbersGame.handle_game_input (idRng 16) gNoSel KeyCode.left = some gNoSel
    ∧ gNoSel.puzzle.selected_suggestion = none
    ∧ ¬ (BinaryNumbersGame.handle_game_input (idRng 16) gNoSel KeyCode.left
          = some (gNoSel.set_selection (some (gNoSel.puzzle.suggestions.getD 0 0)))) := by
  decide

/-- C8 (amended): for an unresolved puzzle with duplicate-free non-empty
suggestions, Right advances the selected index by 1 modulo the count and Left
retreats it by 1 modulo the count; with no selection yet, Right selects index 0
but Left leaves the selection unset (it is a no-op, not a move to index 0). -/
theorem C8_move_selection (g g2 : BinaryNumbersGame) (i : Nat) (rng rng2 : Rng)
    (hgo : g.game_over = false) (hres : g.puzzle.guess_result = none)
    (hnd : g.puzzle.suggestions.Nodup) (hi : i < g.puzzle.suggestions.length)
    (hsel : g.puzzle.selected_suggestion = some (g.puzzle.suggestions.getD i 0))
    (hgo2 : g2.game_over = false) (hres2 : g2.puzzle.guess_result = none)
    (hsel2 : g2.puzzle.selected_suggestion = none) :
    g.handle_game_input rng KeyCode.right
      = some (g.set_selection
          (some (g.puzzle.suggestions.getD ((i + 1) % g.puzzle.suggestions.length) 0)))
    ∧ g.handle_game_input rng KeyCode.left
      = some (g.set_selection
          (some (g.puzzle.suggestions.getD
            ((i + g.puzzle.suggestions.length - 1) % g.puzzle.suggestions.length) 0)))
    ∧ g2.handle_game_input rng2 KeyCode.right
      = some (g2.set_selection (some (g2.puzzle.suggestions.getD 0 0)))
    ∧ g2.handle_game_input rng2 KeyCode.left = some g2 := by
  have hfind := findIdx_self_of_nodup g.puzzle.suggestions i hi hnd
  have harith : (i + g.puzzle.suggestions.length - 1) % g.puzzle.suggestions.length
      = if i = 0 then g.puzzle.suggestions.length - 1 else i - 1 := by
    rcases Nat.eq_zero_or_pos i with h0 | h0
    · subst h0
      simp only [Nat.zero_add, if_pos rfl]
      exact Nat.mod_eq_of_lt (by omega)
    · rw [if_neg (by omega)]
      have hsum : i + g.puzzle.suggestions.length - 1 = (i - 1) + g.puzzle.suggestions.length := by
        omega
      rw [hsum, Nat.add_mod_right]
      exact Nat.mod_eq_of_lt (by omega)
  refine ⟨?_, ?_, ?_, ?_⟩
  · unfold BinaryNumbersGame.handle_game_input BinaryNumbersGame.handle_no_result_yet
      BinaryNumbersGame.set_selection
    simp only [hgo, Bool.false_eq_true, if_false, hres, hsel, hfind]
    simp
  · unfold BinaryNumbersGame.handle_game_input BinaryNumbersGame.handle_no_result_yet
      BinaryNumbersGame.set_selection
    simp only [hgo, Bool.false_eq_true, if_false, hres, hsel, hfind, harith]
    simp
  · unfold BinaryNumbersGame.handle_game_input BinaryNumbersGame.handle_no_result_yet
      BinaryNumbersGame.set_selection
    simp only [hgo2, Bool.false_eq_true, if_false, hres2, hsel2]
    simp
  · unfold BinaryNumbersGame.handle_game_input BinaryNumbersGame.handle_no_result_yet
    simp only [hgo2, Bool.false_eq_true, if_false, hres2, hsel2]
    simp

/-- The mid-round state with the selection on index 1 of `[0, 1, 2, 3]`. -/
def gSel1 : BinaryNumbersGame :=
  { gInit with puzzle := { pInit with selected_suggestion := some 1 } }

/-- C8 witness: concrete moves on suggestions `[0, 1, 2, 3]` with index 1
selected, plus the no-selection state. -/
theorem C8_move_selection_witness :
    gSel1.handle_game_input (idRng 16) KeyCode.right
      = some (gSel1.set_selection
          (some (gSel1.puzzle.suggestions.getD ((1 + 1) % gSel1.puzzle.suggestions.length) 0)))
    ∧ gSel1.handle_game_input (idRng 16) KeyCode.left
      = some (gSel1.set_selection
          (some (gSel1.puzzle.suggestions.getD
            ((1 + gSel1.puzzle.suggestions.length - 1) % gSel1.puzzle.suggestions.length) 0)))
    ∧ gNoSel.handle_game_input (idRng 16) KeyCode.right
      = some (gNoSel.set_selection (some (gNoSel.puzzle.suggestions.getD 0 0)))
    ∧ gNoSel.handle_game_input (idRng 16) KeyCode.left = some gNoSel :=
  C8_move_selection gSel1 gNoSel 1 (idRng 16) (idRng 16) rfl rfl (by decide) (by decide)
    rfl rfl rfl rfl

/-! C3: three lost rounds, then reset. -/

/-- Net effect of recording a non-Correct outcome and finalizing it. -/
theorem lost_round_fields (g : BinaryNumbersGame) (r : GuessResult)
    (hr : r ≠ GuessResult.correct) :
    ((g.set_result r).finalize_round).lives = g.lives - 1
    ∧ ((g.set_result r).finalize_round).streak = 0
    ∧ ((g.set_result r).finalize_round).score = g.score
    ∧ ((g.set_result r).finalize_round).rounds = g.rounds + 1
    ∧ ((g.set_result r).finalize_round).bits = g.bits
    ∧ ((g.set_result r).finalize_round).game_over
        = (if g.lives - 1 = 0 then true else g.game_over)
    ∧ ((g.set_result r).finalize_round).puzzle_resolved = true := by
  have hor : r = GuessResult.incorrect ∨ r = GuessResult.timeout := by
    cases r with
    | correct => exact absurd rfl hr
    | incorrect => exact Or.inl rfl
    | timeout => exact Or.inr rfl
  rw [finalize_eval_lost (g.set_result r) r hor rfl]
  exact ⟨rfl, rfl, rfl, rfl, rfl, rfl, rfl⟩

/-- The Enter key on a resolved round (not game over) installs a fresh puzzle
drawn at the current streak. -/
theorem enter_after_result (rng : Rng) (g g2 : BinaryNumbersGame) (r : GuessResult)
    (hgo : g.game_over = false) (hres : g.puzzle.guess_result = some r)
    (h : g.handle_game_input rng KeyCode.enter = some g2) :
    ∃ p, BinaryNumbersPuzzle.new rng g.bits g.streak = some p
      ∧ g2 = { g with puzzle := p, puzzle_resolved := false } := by
  unfold BinaryNumbersGame.handle_game_input at h
  rw [if_neg (by decide : ¬(KeyCode.enter = KeyCode.esc))] at h
  rw [hgo] at h
  simp only [Bool.false_eq_true, if_false] at h
  rw [hres] at h
  dsimp only at h
  unfold BinaryNumbersGame.handle_result_available at h
  rw [Option.map_eq_some'] at h
  obtain ⟨p, hp, hg2⟩ := h
  exact ⟨p, hp, hg2.symm⟩

/-- The Enter key in the game-over state resets the session. -/
theorem enter_at_game_over (rng : Rng) (g g2 : BinaryNumbersGame)
    (hgo : g.game_over = true)
    (h : g.handle_game_input rng KeyCode.enter = some g2) :
    g2.lives = 3 ∧ g2.score = 0 ∧ g2.streak = 0 ∧ g2.rounds = 0
    ∧ g2.game_over = false ∧ g2.puzzle_resolved = false ∧ g2.bits = g.bits
    ∧ BinaryNumbersPuzzle.new rng g.bits 0 = some g2.puzzle := by
  unfold BinaryNumbersGame.handle_game_input at h
  rw [if_neg (by decide : ¬(KeyCode.enter = KeyCode.esc)), if_pos hgo] at h
  unfold BinaryNumbersGame.handle_game_over_input
    BinaryNumbersGame.reset_game_state at h
  rw [Option.map_eq_some'] at h
  obtain ⟨p, hp, hg2⟩ := h
  subst hg2
  exact ⟨rfl, rfl, rfl, rfl, rfl, rfl, rfl, hp⟩

/-- C3: from a fresh session (3 lives), three consecutive rounds finalized with
non-Correct outcomes (with Enter starting the next round in between) drive
lives to 0 and set game over; the subsequent Enter (reset) restores lives 3,
score 0, streak 0, rounds 0, clears the flags, and installs a fresh puzzle
created with streak 0. -/
theorem C3_three_losses_then_reset
    (bits : Bits) (rng0 rng1 rng2 rng3 : Rng)
    (g0 g1a g2a g4 : BinaryNumbersGame) (r1 r2 r3 : GuessResult)
    (hr1 : r1 ≠ GuessResult.correct) (hr2 : r2 ≠ GuessResult.correct)
    (hr3 : r3 ≠ GuessResult.correct)
    (h0 : BinaryNumbersGame.new rng0 bits = some g0)
    (h1 : BinaryNumbersGame.handle_game_input rng1 ((g0.set_result r1).finalize_round)
            KeyCode.enter = some g1a)
    (h2 : BinaryNumbersGame.handle_game_input rng2 ((g1a.set_result r2).finalize_round)
            KeyCode.enter = some g2a)
    (h4 : BinaryNumbersGame.handle_game_input rng3 ((g2a.set_result r3).finalize_round)
            KeyCode.enter = some g4) :
    ((g2a.set_result r3).finalize_round).lives = 0
    ∧ ((g2a.set_result r3).finalize_round).game_over = true
    ∧ g4.lives = 3 ∧ g4.score = 0 ∧ g4.streak = 0 ∧ g4.rounds = 0
    ∧ g4.game_over = false ∧ g4.puzzle_resolved = false
    ∧ BinaryNumbersPuzzle.new rng3 bits 0 = some g4.puzzle := by
  unfold BinaryNumbersGame.new at h0
  rw [Option.map_eq_some'] at h0
  obtain ⟨p0, hp0, hg0⟩ := h0
  obtain ⟨k1l, k1s, k1sc, k1r, k1b, k1go, k1pr⟩ := lost_round_fields g0 r1 hr1
  have hg0lives : g0.lives = 3 := by rw [← hg0]
  have hg0go : g0.game_over = false := by rw [← hg0]
  have hg0bits : g0.bits = bits := by rw [← hg0]
  have hg0streak : g0.streak = 0 := by rw [← hg0]
  have hgo1 : ((g0.set_result r1).finalize_round).game_over = false := by
    rw [k1go, hg0lives, hg0go]
    norm_num
  obtain ⟨p1, hp1, hg1a⟩ := enter_after_result rng1 _ g1a r1 hgo1
    (by rw [finalize_puzzle_eq]; rfl) h1
  have h1lives : g1a.lives = 2 := by rw [hg1a]; dsimp only; rw [k1l, hg0lives]
  have h1go : g1a.game_over = false := by rw [hg1a]; dsimp only; exact hgo1
  have h1bits : g1a.bits = bits := by rw [hg1a]; dsimp only; rw [k1b, hg0bits]
  obtain ⟨k2l, k2s, k2sc, k2r, k2b, k2go, k2pr⟩ := lost_round_fields g1a r2 hr2
  have hgo2 : ((g1a.set_result r2).finalize_round).game_over = false := by
    rw [k2go, h1lives, h1go]
    norm_num
  obtain ⟨p2, hp2, hg2a⟩ := enter_after_result rng2 _ g2a r2 hgo2
    (by rw [finalize_puzzle_eq]; rfl) h2
  have h2lives : g2a.lives = 1 := by rw [hg2a]; dsimp only; rw [k2l, h1lives]
  have h2bits : g2a.bits = bits := by rw [hg2a]; dsimp only; rw [k2b, h1bits]
  obtain ⟨k3l, k3s, k3sc, k3r, k3b, k3go, k3pr⟩ := lost_round_fields g2a r3 hr3
  have h3lives : ((g2a.set_result r3).finalize_round).lives = 0 := by
    rw [k3l, h2lives]
  have h3go : ((g2a.set_result r3).finalize_round).game_over = true := by
    rw [k3go, h2lives]
    norm_num
  have h3bits : ((g2a.set_result r3).finalize_round).bits = bits := by
    rw [k3b, h2bits]
  obtain ⟨m1, m2, m3, m4, m5, m6, m7, m8⟩ := enter_at_game_over rng3 _ g4 h3go h4
  rw [h3bits] at m8
  exact ⟨h3lives, h3go, m1, m2, m3, m4, m5, m6, m8⟩

/-- The session after the first lost round's Enter (fresh puzzle, 2 lives). -/
def wg1 : BinaryNumbersGame := { gInit with rounds := 1, lives := 2 }

/-- The session after the second lost round's Enter (fresh puzzle, 1 life). -/
def wg2 : BinaryNumbersGame := { gInit with rounds := 2, lives := 1 }

theorem hwg1 : BinaryNumbersGame.handle_game_input (idRng 16)
    ((gInit.set_result GuessResult.timeout).finalize_round) KeyCode.enter = some wg1 := by
  have hnew : BinaryNumbersPuzzle.new (idRng 16)
      ((gInit.set_result GuessResult.timeout).finalize_round).bits
      ((gInit.set_result GuessResult.timeout).finalize_round).streak = some pInit := hpInit
  unfold BinaryNumbersGame.handle_game_input BinaryNumbersGame.handle_result_available
  rw [if_neg (by decide : ¬(KeyCode.enter = KeyCode.esc))]
  simp only [show ((gInit.set_result GuessResult.timeout).finalize_round).game_over = false
      from rfl, Bool.false_eq_true, if_false,
    show ((gInit.set_result GuessResult.timeout).finalize_round).puzzle.guess_result
      = some GuessResult.timeout from rfl]
  rw [hnew]
  rfl

theorem hwg2 : BinaryNumbersGame.handle_game_input (idRng 16)
    ((wg1.set_result GuessResult.incorrect).finalize_round) KeyCode.enter = some wg2 := by
  have hnew : BinaryNumbersPuzzle.new (idRng 16)
      ((wg1.set_result GuessResult.incorrect).finalize_round).bits
      ((wg1.set_result GuessResult.incorrect).finalize_round).streak = some pInit := hpInit
  unfold BinaryNumbersGame.handle_game_input BinaryNumbersGame.handle_result_available
  rw [if_neg (by decide : ¬(KeyCode.enter = KeyCode.esc))]
  simp only [show ((wg1.set_result GuessResult.incorrect).finalize_round).game_over = false
      from rfl, Bool.false_eq_true, if_false,
    show ((wg1.set_result GuessResult.incorrect).finalize_round).puzzle.guess_result
      = some GuessResult.incorrect from rfl]
  rw [hnew]
  rfl

theorem hwg4 : BinaryNumbersGame.handle_game_input (idRng 16)
    ((wg2.set_result GuessResult.timeout).finalize_round) KeyCode.enter = some gInit := by
  have hnew : BinaryNumbersPuzzle.new (idRng 16)
      ((wg2.set_result GuessResult.timeout).finalize_round).bits 0 = some pInit := hpInit
  unfold BinaryNumbersGame.handle_game_input BinaryNumbersGame.handle_game_over_input
    BinaryNumbersGame.reset_game_state
  rw [if_neg (by decide : ¬(KeyCode.enter = KeyCode.esc))]
  simp only [show ((wg2.set_result GuessResult.timeout).finalize_round).game_over = true
      from rfl, if_true]
  rw [hnew]
  rfl

/-- C3 witness: the concrete trace timeout–incorrect–timeout from the fresh
8-bit session reaches game over at 0 lives, and Enter resets to the initial
session shape with a fresh streak-0 puzzle. -/
theorem C3_three_losses_then_reset_witness :
    ((wg2.set_result GuessResult.timeout).finalize_round).lives = 0
    ∧ ((wg2.set_result GuessResult.timeout).finalize_round).game_over = true
    ∧ gInit.lives = 3 ∧ gInit.score = 0 ∧ gInit.streak = 0 ∧ gInit.rounds = 0
    ∧ gInit.game_over = false ∧ gInit.puzzle_resolved = false
    ∧ BinaryNumbersPuzzle.new (idRng 16) Bits.eight 0 = some gInit.puzzle :=
  C3_three_losses_then_reset Bits.eight (idRng 16) (idRng 16) (idRng 16) (idRng 16)
    gInit wg1 wg2 gInit GuessResult.timeout GuessResult.incorrect GuessResult.timeout
    (by decide) (by decide) (by decide) hgInit hwg1 hwg2 hwg4

/-- C9 (amended): the `h` key flips `hint_visible` (and changes nothing else)
both before and after an outcome is set, but in the game-over state it is
ignored and the session is unchanged. -/
theorem C9_toggle_hint (rng : Rng) (g : BinaryNumbersGame) :
    g.handle_game_input rng KeyCode.charH =
      some (if g.game_over then g
            else { g with puzzle := { g.puzzle with show_hint := !g.puzzle.show_hint } }) := by
  unfold BinaryNumbersGame.handle_game_input BinaryNumbersGame.handle_game_over_input
    BinaryNumbersGame.handle_result_available BinaryNumbersGame.handle_no_result_yet
  by_cases hgo : g.game_over
  · simp [hgo]
  · cases hres : g.puzzle.guess_result <;> simp [hgo, hres]

end Hackerman
